import Mathlib

/-!
Formal model of the signal-processing and device-orchestration core of the
NanoWeb FlaskServer (files `nano_app.py` and `nanovna_api.py`).

Numeric values are embedded as exact rationals (`ℚ`) where the Python code
computes with floats by elementary arithmetic, and as real/complex numbers
(`ℝ`, `ℂ`) for the magnitude-based marker quantities.  Data arrays are
`List`s; a complex sample is a pair `(re, im) : ℚ × ℚ` in the rational
development.  Python `float('inf')` results are represented by `none` in an
`Option` result type.
-/

/-- `np.linspace a b n`: `n` evenly spaced values from `a` to `b`, endpoint
included (`numpy` semantics: empty for `n = 0`, `[a]` for `n = 1`). -/
def linspace (a b : ℚ) (n : ℕ) : List ℚ :=
  if n = 0 then []
  else if n = 1 then [a]
  else (List.range n).map (fun k : ℕ => a + (b - a) * (k : ℚ) / ((n : ℚ) - 1))

/-- `np.min` on a list of rationals (`0` for the empty array, which the
Python code never reaches). -/
def listMin : List ℚ → ℚ
  | [] => 0
  | x :: xs => xs.foldl min x

/-- `np.max` on a list of rationals (`0` for the empty array). -/
def listMax : List ℚ → ℚ
  | [] => 0
  | x :: xs => xs.foldl max x

/-- `compute_tdr(freq_hz, sparam, num_points)` from `nano_app.py`.

The function returns `(np.array([0]), np.array([0]))` when fewer than two
frequency points are given, or when the `try` block fails: the block
constructs `interp1d(freq_hz, sparam, kind='cubic')`, whose construction
raises (scipy requirement for a degree-3 spline) exactly when fewer than 4
points or duplicate abscissae are supplied.  Otherwise it computes
`df = (fmax - fmin) / (num_points - 1)`, `dt = 1/df if df > 0 else 0` and
the time axis `np.arange(num_points) * dt`.

The time-domain response `np.fft.ifft(sparam_interp) * windows.kaiser(num_points, 5)`
involves transcendental constants; it is abstracted by the parameter
`resp`, which stands for that pipeline applied to the interpolated data.
No claim constrains its values outside the degenerate branch. -/
def compute_tdr (resp : ℕ → List (ℚ × ℚ)) (freq : List ℚ) (numPoints : ℕ) :
    List ℚ × List (ℚ × ℚ) :=
  if freq.length < 2 then ([0], [(0, 0)])
  else if freq.length < 4 ∨ ¬ freq.Nodup then ([0], [(0, 0)])
  else
    let fmin := listMin freq
    let fmax := listMax freq
    let df := (fmax - fmin) / ((numPoints : ℚ) - 1)
    let dt := if 0 < df then 1 / df else 0
    ((List.range numPoints).map (fun k : ℕ => (k : ℚ) * dt), resp numPoints)

/-- Claim C9 (confirmed): `compute_tdr` on fewer than 2 frequency points
returns the degenerate single-zero pair `([0], [0])` and raises no
exception (the embedding is a total function and takes the early-return
branch). -/
theorem compute_tdr_degenerate (resp : ℕ → List (ℚ × ℚ)) (freq : List ℚ)
    (numPoints : ℕ) (h : freq.length < 2) :
    compute_tdr resp freq numPoints = ([0], [(0, 0)]) := by
  unfold compute_tdr
  rw [if_pos h]

/-- Witness for C9: the empty frequency list has fewer than 2 points and
produces `([0], [0])`. -/
theorem compute_tdr_degenerate_case :
    ([] : List ℚ).length < 2 ∧
      compute_tdr (fun _ => []) ([] : List ℚ) 1024 = ([0], [(0, 0)]) :=
  ⟨by decide, compute_tdr_degenerate (fun _ => []) [] 1024 (by decide)⟩

/-- Claim C1 (amended, proved): with `numPoints = 1024`, at least 4
pairwise-distinct frequency points and a positive span, the time axis is
`t[k] = k * ((numPoints - 1) / (fmax - fmin))`, i.e. the sample spacing is
`(numPoints - 1)` times the reciprocal of the frequency span (the code
divides the span by `num_points - 1` to get `df` and uses `dt = 1/df`),
with index order used directly. -/
theorem compute_tdr_time_axis (resp : ℕ → List (ℚ × ℚ)) (freq : List ℚ)
    (k : ℕ) (h4 : 4 ≤ freq.length) (hnd : freq.Nodup)
    (hlt : listMin freq < listMax freq) (hk : k < 1024) :
    (compute_tdr resp freq 1024).1[k]? =
      some ((k : ℚ) * (((1024 : ℚ) - 1) / (listMax freq - listMin freq))) := by
  have hdf : (0 : ℚ) < (listMax freq - listMin freq) / (((1024 : ℕ) : ℚ) - 1) :=
    div_pos (by linarith) (by norm_num)
  simp only [compute_tdr, if_neg (show ¬ freq.length < 2 by omega),
    if_neg (show ¬ (freq.length < 4 ∨ ¬ freq.Nodup) by push_neg; exact ⟨h4, hnd⟩),
    if_pos hdf, List.getElem?_map, List.getElem?_range hk, Option.map_some']
  rw [one_div_div]
  norm_num

/-- Witness for C1's amended theorem: on frequencies `[0, 1, 2, 3]` the
hypotheses hold and entry `k = 2` of the 1024-point time axis is
`2 * (1023 / 3)`. -/
theorem compute_tdr_time_axis_case :
    4 ≤ ([0, 1, 2, 3] : List ℚ).length ∧ ([0, 1, 2, 3] : List ℚ).Nodup ∧
      listMin [0, 1, 2, 3] < listMax [0, 1, 2, 3] ∧
      (compute_tdr (fun _ => []) [0, 1, 2, 3] 1024).1[2]? =
        some ((2 : ℚ) * (((1024 : ℚ) - 1) / (listMax [0, 1, 2, 3] - listMin [0, 1, 2, 3]))) :=
  ⟨by decide, by decide, by decide,
    compute_tdr_time_axis (fun _ => []) [0, 1, 2, 3] 2 (by decide) (by decide)
      (by decide) (by decide)⟩

/-- Claim C1 (counterexample): on frequencies `[0, 1, 2, 3]` with
`numPoints = 1024`, entry `k = 1` of the returned time axis is `341`
(that is `1023 / (3 - 0)`), not `1 / (fmax - fmin) = 1 / 3` as the claim
states. -/
theorem compute_tdr_time_axis_claim_false :
    (compute_tdr (fun _ => []) [0, 1, 2, 3] 1024).1[1]? = some 341 ∧
      ¬ ((341 : ℚ) = 1 / (3 - 0)) := by
  constructor
  · have hdf : (0 : ℚ) <
        (listMax [0, 1, 2, 3] - listMin [0, 1, 2, 3]) / (((1024 : ℕ) : ℚ) - 1) := by
      norm_num [listMin, listMax, min_def, max_def]
    simp only [compute_tdr, if_neg (show ¬ ([0, 1, 2, 3] : List ℚ).length < 2 by decide),
      if_neg (show ¬ (([0, 1, 2, 3] : List ℚ).length < 4 ∨ ¬ ([0, 1, 2, 3] : List ℚ).Nodup) by
        decide),
      if_pos hdf, List.getElem?_map, List.getElem?_range (show 1 < 1024 by norm_num),
      Option.map_some']
    norm_num [listMin, listMax, min_def, max_def]
  · norm_num

/-- The marker readout in `update_markinfo_tab` computes
`vswr = (1 + mag) / (1 - mag) if mag < 1 else float('inf')` with
`mag = np.abs(s11_val)`.  The `+infinity` branch is represented by
`none`. -/
noncomputable def vswr (s : ℂ) : Option ℝ :=
  if Complex.abs s < 1 then some ((1 + Complex.abs s) / (1 - Complex.abs s)) else none

/-- The marker readout computes `z_val = z0 * (1 + s11_val) / (1 - s11_val)`,
turning a division by zero (which happens exactly at `s11_val == 1`) into an
infinite impedance instead of a raised error; the infinite result is
represented by `none`. -/
noncomputable def impedance (s : ℂ) (z0 : ℝ) : Option ℂ :=
  if s = 1 then none else some (z0 * (1 + s) / (1 - s))

/-- Claim C6 (confirmed): `vswr(s) = (1 + |s|) / (1 - |s|)` for `|s| < 1`
and `+infinity` (here `none`) for `|s| ≥ 1`; in particular `vswr 0 = 1`
exactly, and the samples `0`, `0.5`, `0.9` give `1`, `3`, `19`. -/
theorem vswr_formula_and_values :
    (∀ s : ℂ, Complex.abs s < 1 →
        vswr s = some ((1 + Complex.abs s) / (1 - Complex.abs s))) ∧
      (∀ s : ℂ, 1 ≤ Complex.abs s → vswr s = none) ∧
      vswr ((0 : ℝ) : ℂ) = some 1 ∧
      vswr ((1 / 2 : ℝ) : ℂ) = some 3 ∧
      vswr ((9 / 10 : ℝ) : ℂ) = some 19 := by
  refine ⟨fun s hs => if_pos hs, fun s hs => if_neg (by linarith), ?_, ?_, ?_⟩
  · rw [vswr, if_pos (by norm_num)]
    norm_num
  · rw [vswr,
      if_pos (by rw [Complex.abs_ofReal, abs_of_nonneg (by norm_num : (0:ℝ) ≤ 1/2)]; norm_num)]
    rw [Complex.abs_ofReal, abs_of_nonneg (by norm_num : (0:ℝ) ≤ 1/2)]
    norm_num
  · rw [vswr,
      if_pos (by rw [Complex.abs_ofReal, abs_of_nonneg (by norm_num : (0:ℝ) ≤ 9/10)]; norm_num)]
    rw [Complex.abs_ofReal, abs_of_nonneg (by norm_num : (0:ℝ) ≤ 9/10)]
    norm_num

/-- Witness for C6: the bounded branch applied at `s = 0` and the infinite
branch applied at `s = 2`. -/
theorem vswr_formula_case :
    Complex.abs ((0 : ℝ) : ℂ) < 1 ∧
      vswr ((0 : ℝ) : ℂ) = some ((1 + Complex.abs ((0 : ℝ) : ℂ)) / (1 - Complex.abs ((0 : ℝ) : ℂ))) ∧
      (1 : ℝ) ≤ Complex.abs ((2 : ℝ) : ℂ) ∧ vswr ((2 : ℝ) : ℂ) = none := by
  refine ⟨by norm_num, vswr_formula_and_values.1 _ (by norm_num), ?_, ?_⟩
  · rw [Complex.abs_ofReal]; norm_num
  · exact vswr_formula_and_values.2.1 _ (by rw [Complex.abs_ofReal]; norm_num)

/-- Claim C5 (confirmed): `impedance(s, 50) = 50 * (1 + s) / (1 - s)`;
`impedance(0, 50) = 50 + 0j`, and `s = 1` (the division by zero) yields the
infinite result (`none`) rather than an error: the result is infinite
exactly at `s = 1`. -/
theorem impedance_formula_and_values :
    impedance 0 50 = some 50 ∧ impedance 1 50 = none ∧
      (∀ (s : ℂ) (z0 : ℝ), impedance s z0 = none ↔ s = 1) ∧
      (∀ (s : ℂ) (z0 : ℝ), s ≠ 1 →
        impedance s z0 = some ((z0 : ℂ) * (1 + s) / (1 - s))) := by
  refine ⟨?_, if_pos rfl, fun s z0 => ?_, fun s z0 hs => if_neg hs⟩
  · rw [impedance, if_neg (by norm_num)]
    norm_num
  · constructor
    · intro h
      by_contra hs
      rw [impedance, if_neg hs] at h
      exact Option.some_ne_none _ h
    · intro h
      rw [impedance, if_pos h]

/-- Witness for C5: the formula branch applied at the concrete sample
`s = Complex.I`, which differs from `1`. -/
theorem impedance_formula_case :
    Complex.I ≠ 1 ∧
      impedance Complex.I 50 = some ((50 : ℂ) * (1 + Complex.I) / (1 - Complex.I)) := by
  have h : Complex.I ≠ 1 := by
    intro h
    have := congrArg Complex.im h
    simp at this
  exact ⟨h, impedance_formula_and_values.2.2.2 Complex.I 50 h⟩

/-- Full discrete convolution of `a` with the kernel `np.ones(w)/w`, as
`np.convolve` computes it: entry `k` (for `k < a.length + w - 1`) is the sum
of the `a[j]` with `k - w < j ≤ k` (out-of-range `j` contribute the implicit
zero padding), divided by `w`. -/
def convolveFull (a : List ℚ) (w : ℕ) : List ℚ :=
  (List.range (a.length + w - 1)).map (fun k =>
    (((List.range a.length).filter (fun j => j ≤ k ∧ k < j + w)).map
      (fun j => a.getD j 0)).sum / (w : ℚ))

/-- `np.convolve(a, np.ones(w)/w, mode='same')`: the centered slice of
length `max(len(a), w)` of the full convolution, starting at index
`(min(len(a), w) - 1) // 2`. -/
def convolveSame (a : List ℚ) (w : ℕ) : List ℚ :=
  ((convolveFull a w).drop ((min a.length w - 1) / 2)).take (max a.length w)

/-- `moving_average_complex(arr, w)` from `nano_app.py`: `np.convolve` with
kernel `np.ones(w)/w` in `'same'` mode, applied independently to the real
and the imaginary part. -/
def moving_average_complex (arr : List (ℚ × ℚ)) (w : ℕ) : List (ℚ × ℚ) :=
  (convolveSame (arr.map Prod.fst) w).zip (convolveSame (arr.map Prod.snd) w)

/-- The smoothing step of `apply_advanced_functions`: the moving average is
applied only when the window `w` exceeds 1. -/
def smooth (arr : List (ℚ × ℚ)) (w : ℕ) : List (ℚ × ℚ) :=
  if 1 < w then moving_average_complex arr w else arr

/-- Centered window mean with the code's zero-padded boundary: the sum of
the in-bounds samples `a[j]` with `i - w/2 ≤ j ≤ i + (w-1)/2`, divided by
the full window size `w` regardless of how many samples are in bounds. -/
def centeredWindowAvg (a : List ℚ) (w i : ℕ) : ℚ :=
  (((List.range a.length).filter (fun j => i ≤ j + w / 2 ∧ j ≤ i + (w - 1) / 2)).map
    (fun j => a.getD j 0)).sum / (w : ℚ)

/-- Modelled from the claim's words, for comparison with the code: a
centered moving average whose edge windows are truncated to the in-bounds
samples, i.e. the mean is taken over only the samples actually inside the
array (divide by the in-bounds count, not by `w`). -/
def truncatedWindowAvg (a : List ℚ) (w i : ℕ) : ℚ :=
  (((List.range a.length).filter (fun j => i ≤ j + w / 2 ∧ j ≤ i + (w - 1) / 2)).map
    (fun j => a.getD j 0)).sum /
    ((((List.range a.length).filter
      (fun j => i ≤ j + w / 2 ∧ j ≤ i + (w - 1) / 2)).length : ℚ))

/-- Modelled from the claim's words: smoothing with truncated-mean edge
handling, applied independently to real and imaginary parts, identity for
`w ≤ 1`. -/
def smoothTruncated (arr : List (ℚ × ℚ)) (w : ℕ) : List (ℚ × ℚ) :=
  if 1 < w then
    (List.range arr.length).map (fun i =>
      (truncatedWindowAvg (arr.map Prod.fst) w i, truncatedWindowAvg (arr.map Prod.snd) w i))
  else arr

theorem convolveFull_length (a : List ℚ) (w : ℕ) :
    (convolveFull a w).length = a.length + w - 1 := by
  simp [convolveFull]

theorem convolveSame_length (a : List ℚ) (w : ℕ) (hw : 1 ≤ w) (hwa : w ≤ a.length) :
    (convolveSame a w).length = a.length := by
  rw [convolveSame, List.length_take, List.length_drop, convolveFull_length]
  omega

theorem convolveSame_getElem (a : List ℚ) (w : ℕ) (hw : 1 < w) (hwa : w ≤ a.length)
    (i : ℕ) (hi : i < a.length) :
    (convolveSame a w)[i]? = some (centeredWindowAvg a w i) := by
  have hmin : min a.length w = w := by omega
  rw [convolveSame, hmin, List.getElem?_take, if_pos (by omega), List.getElem?_drop,
    convolveFull, List.getElem?_map, List.getElem?_range (by omega), Option.map_some']
  rw [centeredWindowAvg,
    List.filter_congr (fun j _ => by
      simp only [decide_eq_decide]
      omega : ∀ j ∈ List.range a.length,
        (decide (j ≤ (w - 1) / 2 + i ∧ (w - 1) / 2 + i < j + w)) =
          (decide (i ≤ j + w / 2 ∧ j ≤ i + (w - 1) / 2)))]

/-- Claim C4 (amended, proved): for `w ≤ 1` smoothing is the identity; for
`1 < w ≤ len(arr)` it returns a same-length array whose entry `i` is the
centered window mean of window `w` applied independently to real and
imaginary parts, where edge windows take only the in-bounds samples but the
divisor stays `w` (numpy zero-padding), rather than the truncated mean the
claim describes. -/
theorem smooth_centered_zero_padded (arr : List (ℚ × ℚ)) (w : ℕ) :
    (w ≤ 1 → smooth arr w = arr) ∧
      (1 < w → w ≤ arr.length →
        (smooth arr w).length = arr.length ∧
          ∀ i, i < arr.length →
            (smooth arr w)[i]? =
              some (centeredWindowAvg (arr.map Prod.fst) w i,
                centeredWindowAvg (arr.map Prod.snd) w i)) := by
  constructor
  · intro hw
    rw [smooth, if_neg (by omega)]
  · intro hw hwa
    have hf : (arr.map Prod.fst).length = arr.length := by simp
    have hs : (arr.map Prod.snd).length = arr.length := by simp
    rw [smooth, if_pos hw, moving_average_complex]
    constructor
    · rw [List.length_zip, convolveSame_length _ _ (by omega) (by omega : w ≤ (arr.map Prod.fst).length),
        convolveSame_length _ _ (by omega) (by omega : w ≤ (arr.map Prod.snd).length)]
      omega
    · intro i hi
      rw [List.getElem?_zip_eq_some]
      exact ⟨convolveSame_getElem _ _ hw (by omega) i (by omega),
        convolveSame_getElem _ _ hw (by omega) i (by omega)⟩

/-- Witness for C4's amended theorem: at `arr = [1, 1, 1]` (as complex
samples) with window 3 the hypotheses hold, and entry 0 is the centered
zero-padded window mean. -/
theorem smooth_centered_zero_padded_case :
    1 < 3 ∧ 3 ≤ ([(1, 0), (1, 0), (1, 0)] : List (ℚ × ℚ)).length ∧
      (0 : ℕ) < ([(1, 0), (1, 0), (1, 0)] : List (ℚ × ℚ)).length ∧
      (smooth [(1, 0), (1, 0), (1, 0)] 3)[0]? =
        some (centeredWindowAvg (([(1, 0), (1, 0), (1, 0)] : List (ℚ × ℚ)).map Prod.fst) 3 0,
          centeredWindowAvg (([(1, 0), (1, 0), (1, 0)] : List (ℚ × ℚ)).map Prod.snd) 3 0) :=
  ⟨by norm_num, by norm_num, by norm_num,
    ((smooth_centered_zero_padded [(1, 0), (1, 0), (1, 0)] 3).2 (by norm_num)
      (by norm_num)).2 0 (by norm_num)⟩

theorem centeredWindowAvg_ones_left : centeredWindowAvg [1, 1, 1] 3 0 = 2 / 3 := by
  norm_num [centeredWindowAvg]
  rw [show List.filter (fun j => decide (j ≤ 1)) (List.range 3) = [0, 1] from by decide]
  norm_num

theorem centeredWindowAvg_ones_mid : centeredWindowAvg [1, 1, 1] 3 1 = 1 := by
  norm_num [centeredWindowAvg]
  rw [show List.filter (fun j => decide (j ≤ 2)) (List.range 3) = [0, 1, 2] from by decide]
  norm_num

theorem centeredWindowAvg_ones_right : centeredWindowAvg [1, 1, 1] 3 2 = 2 / 3 := by
  norm_num [centeredWindowAvg]
  rw [show List.filter (fun j => decide (2 ≤ j + 1) && decide (j ≤ 3)) (List.range 3) = [1, 2]
      from by decide]
  norm_num

theorem centeredWindowAvg_zeros (i : ℕ) : centeredWindowAvg [0, 0, 0] 3 i = 0 := by
  rw [centeredWindowAvg]
  have h : ∀ x ∈ (((List.range ([0, 0, 0] : List ℚ).length).filter
      (fun j => i ≤ j + 3 / 2 ∧ j ≤ i + (3 - 1) / 2)).map
        (fun j => ([0, 0, 0] : List ℚ).getD j 0)), x = 0 := by
    intro x hx
    rcases List.mem_map.1 hx with ⟨j, _, hj⟩
    rcases j with _ | _ | _ | j <;> simpa using hj.symm
  rw [List.sum_eq_zero h]
  norm_num

theorem truncatedWindowAvg_ones (i : ℕ) (hi : i < 3) : truncatedWindowAvg [1, 1, 1] 3 i = 1 := by
  interval_cases i
  · rw [truncatedWindowAvg]
    norm_num
    rw [show List.filter (fun j => decide (j ≤ 1)) (List.range 3) = [0, 1] from by decide]
    norm_num
  · rw [truncatedWindowAvg]
    norm_num
    rw [show List.filter (fun j => decide (j ≤ 2)) (List.range 3) = [0, 1, 2] from by decide]
    norm_num
  · rw [truncatedWindowAvg]
    norm_num
    rw [show List.filter (fun j => decide (2 ≤ j + 1) && decide (j ≤ 3)) (List.range 3) = [1, 2]
        from by decide]
    norm_num

theorem truncatedWindowAvg_zeros (i : ℕ) : truncatedWindowAvg [0, 0, 0] 3 i = 0 := by
  rw [truncatedWindowAvg]
  have h : ∀ x ∈ (((List.range ([0, 0, 0] : List ℚ).length).filter
      (fun j => i ≤ j + 3 / 2 ∧ j ≤ i + (3 - 1) / 2)).map
        (fun j => ([0, 0, 0] : List ℚ).getD j 0)), x = 0 := by
    intro x hx
    rcases List.mem_map.1 hx with ⟨j, _, hj⟩
    rcases j with _ | _ | _ | j <;> simpa using hj.symm
  rw [List.sum_eq_zero h]
  norm_num

/-- Claim C4 (counterexample): on the constant array `[1, 1, 1]` with
window 3, the code returns `[2/3, 1, 2/3]` — the edge sums are divided by
the full window size 3 (numpy zero padding) — while averaging over only the
in-bounds samples, as the claim states, would return `[1, 1, 1]`. -/
theorem smooth_truncated_mean_claim_false :
    smooth [(1, 0), (1, 0), (1, 0)] 3 = [(2 / 3, 0), (1, 0), (2 / 3, 0)] ∧
      smoothTruncated [(1, 0), (1, 0), (1, 0)] 3 = [(1, 0), (1, 0), (1, 0)] ∧
      ([(2 / 3, 0), (1, 0), (2 / 3, 0)] : List (ℚ × ℚ)) ≠ [(1, 0), (1, 0), (1, 0)] := by
  refine ⟨?_, ?_, by norm_num⟩
  · rw [smooth, if_pos (by norm_num), moving_average_complex]
    simp only [List.map_cons, List.map_nil]
    have hlen : (List.zip (convolveSame [1, 1, 1] 3) (convolveSame [0, 0, 0] 3)).length = 3 := by
      rw [List.length_zip, convolveSame_length _ _ (by norm_num) (by norm_num),
        convolveSame_length _ _ (by norm_num) (by norm_num)]
      norm_num
    apply List.ext_getElem?
    intro n
    rcases n with _ | _ | _ | n
    · rw [List.getElem?_cons_zero, List.getElem?_zip_eq_some]
      exact ⟨by rw [convolveSame_getElem [1, 1, 1] 3 (by norm_num) (by norm_num) 0 (by norm_num),
          centeredWindowAvg_ones_left],
        by rw [convolveSame_getElem [0, 0, 0] 3 (by norm_num) (by norm_num) 0 (by norm_num),
          centeredWindowAvg_zeros]⟩
    · rw [List.getElem?_cons_succ, List.getElem?_cons_zero, List.getElem?_zip_eq_some]
      exact ⟨by rw [convolveSame_getElem [1, 1, 1] 3 (by norm_num) (by norm_num) 1 (by norm_num),
          centeredWindowAvg_ones_mid],
        by rw [convolveSame_getElem [0, 0, 0] 3 (by norm_num) (by norm_num) 1 (by norm_num),
          centeredWindowAvg_zeros]⟩
    · rw [List.getElem?_cons_succ, List.getElem?_cons_succ, List.getElem?_cons_zero,
        List.getElem?_zip_eq_some]
      exact ⟨by rw [convolveSame_getElem [1, 1, 1] 3 (by norm_num) (by norm_num) 2 (by norm_num),
          centeredWindowAvg_ones_right],
        by rw [convolveSame_getElem [0, 0, 0] 3 (by norm_num) (by norm_num) 2 (by norm_num),
          centeredWindowAvg_zeros]⟩
    · rw [List.getElem?_eq_none
        (by simp only [List.length_cons, List.length_nil]; omega :
          (([(2 / 3, 0), (1, 0), (2 / 3, 0)] : List (ℚ × ℚ))).length ≤ n + 3),
        List.getElem?_eq_none (by rw [hlen]; omega)]
  · rw [smoothTruncated, if_pos (by norm_num)]
    rw [show List.range ([(1, 0), (1, 0), (1, 0)] : List (ℚ × ℚ)).length = [0, 1, 2] from by decide]
    simp only [List.map_cons, List.map_nil]
    rw [truncatedWindowAvg_ones 0 (by norm_num), truncatedWindowAvg_ones 1 (by norm_num),
      truncatedWindowAvg_ones 2 (by norm_num), truncatedWindowAvg_zeros 0,
      truncatedWindowAvg_zeros 1, truncatedWindowAvg_zeros 2]

/-- `apply_advanced_functions(freq_hz, s11_data, s21_data)` from
`nano_app.py`.  `nNew` is `self.interp_points.get()` and `w` is
`self.smooth_window.get()`.  When `nNew > len(freq_hz)` a new axis
`np.linspace(freq_hz[0], freq_hz[-1], nNew)` is built and the cubic
interpolants of S11 and S21 are evaluated on it; the interpolants (scipy
`interp1d(..., kind='cubic', fill_value='extrapolate')` objects built from
the input data) are abstracted as the pointwise-evaluated functions
`interpS11`, `interpS21`, whose values no claim constrains.  Otherwise the
three arrays pass through unchanged.  Finally the smoothing window is
applied to both S-parameter arrays when `w > 1`. -/
def apply_advanced_functions (nNew w : ℕ) (interpS11 interpS21 : ℚ → ℚ × ℚ)
    (freq : List ℚ) (s11 s21 : List (ℚ × ℚ)) :
    List ℚ × List (ℚ × ℚ) × List (ℚ × ℚ) :=
  if freq.length < nNew then
    (linspace freq.headI (freq.getLastD 0) nNew,
      smooth ((linspace freq.headI (freq.getLastD 0) nNew).map interpS11) w,
      smooth ((linspace freq.headI (freq.getLastD 0) nNew).map interpS21) w)
  else (freq, smooth s11 w, smooth s21 w)

theorem linspace_length (a b : ℚ) (n : ℕ) : (linspace a b n).length = n := by
  rw [linspace]
  by_cases h0 : n = 0
  · rw [if_pos h0, h0]
    rfl
  · rw [if_neg h0]
    by_cases h1 : n = 1
    · rw [if_pos h1, h1]
      rfl
    · rw [if_neg h1, List.length_map, List.length_range]

/-- Claim C7 (confirmed): with the smoothing window at most 1, resampling
to `nNew ≤ len(freq)` returns the three arrays unchanged, and resampling a
second time to the same `nNew` (with whatever interpolants `j1`, `j2` the
second call would build) is a no-op, so resampling to a fixed point count
is idempotent. -/
theorem resample_identity_and_idempotent (nNew w : ℕ) (i1 i2 j1 j2 : ℚ → ℚ × ℚ)
    (freq : List ℚ) (s11 s21 : List (ℚ × ℚ)) (hw : w ≤ 1) :
    (nNew ≤ freq.length →
      apply_advanced_functions nNew w i1 i2 freq s11 s21 = (freq, s11, s21)) ∧
      apply_advanced_functions nNew w j1 j2
          (apply_advanced_functions nNew w i1 i2 freq s11 s21).1
          (apply_advanced_functions nNew w i1 i2 freq s11 s21).2.1
          (apply_advanced_functions nNew w i1 i2 freq s11 s21).2.2 =
        apply_advanced_functions nNew w i1 i2 freq s11 s21 := by
  have hsm : ∀ arr : List (ℚ × ℚ), smooth arr w = arr := fun arr => by
    rw [smooth, if_neg (by omega)]
  have key : ∀ (g1 g2 : ℚ → ℚ × ℚ) (f : List ℚ) (a b : List (ℚ × ℚ)),
      nNew ≤ f.length → apply_advanced_functions nNew w g1 g2 f a b = (f, a, b) := by
    intro g1 g2 f a b h
    rw [apply_advanced_functions, if_neg (by omega), hsm a, hsm b]
  have hfst : nNew ≤ (apply_advanced_functions nNew w i1 i2 freq s11 s21).1.length := by
    by_cases hc : freq.length < nNew
    · rw [apply_advanced_functions, if_pos hc]
      rw [linspace_length]
    · rw [apply_advanced_functions, if_neg hc]
      exact Nat.le_of_not_lt hc
  exact ⟨key i1 i2 freq s11 s21,
    key j1 j2 _ _ _ hfst⟩

/-- Witness for C7: a concrete sweep of 3 points, resampled to 2 ≤ 3 points
with window 1, passes through unchanged. -/
theorem resample_identity_case :
    (1 : ℕ) ≤ 1 ∧ 2 ≤ ([1, 2, 3] : List ℚ).length ∧
      apply_advanced_functions 2 1 (fun _ => (0, 0)) (fun _ => (0, 0)) [1, 2, 3]
          [(1, 0)] [] = ([1, 2, 3], [(1, 0)], []) :=
  ⟨le_refl 1, by norm_num,
    (resample_identity_and_idempotent 2 1 (fun _ => (0, 0)) (fun _ => (0, 0))
      (fun _ => (0, 0)) (fun _ => (0, 0)) [1, 2, 3] [(1, 0)] [] (le_refl 1)).1
      (by norm_num)⟩

/-- Commands sent to the device by the scan loop of `nanovna_api.py`:
`scan START STOP POINTS` and `resume`. -/
inductive Cmd where
  | scanCmd (start stop : ℚ) (points : ℕ)
  | resumeCmd
deriving DecidableEq

/-- The `seg_stop` chosen by one iteration of `NanoVNA.scan`: `freqs[100]`
when at least 101 points remain, else `freqs[-1]`. -/
def scanStop (l : List ℚ) : ℚ :=
  if 101 ≤ l.length then l.getD 100 0 else l.getLastD 0

/-- The per-iteration segment descriptors `(seg_start, seg_stop, length)`
produced by the `while len(freqs) > 0` loop of `NanoVNA.scan`: each
iteration consumes `min(101, len(freqs))` points and advances by
`freqs = freqs[101:]`. -/
def scanSegments : List ℚ → List (ℚ × ℚ × ℕ)
  | [] => []
  | f :: fs =>
    (f, scanStop (f :: fs), min 101 (f :: fs).length) :: scanSegments ((f :: fs).drop 101)
termination_by l => l.length
decreasing_by simp; omega

/-- The successive ≤ 101-point slices of the frequency list consumed by the
scan loop (iteration `i` covers `freqs[101*i : 101*(i+1)]`). -/
def segSlices : List ℚ → List (List ℚ)
  | [] => []
  | f :: fs => (f :: fs).take 101 :: segSlices ((f :: fs).drop 101)
termination_by l => l.length
decreasing_by simp; omega

/-- The per-iteration point counts as a function of the list length only. -/
def segLens (n : ℕ) : List ℕ :=
  if n = 0 then [] else min 101 n :: segLens (n - 101)
termination_by n
decreasing_by omega

/-- State of the `NanoVNA` object relevant to `scan`: the cached
`_frequencies` (`None` before any sweep was configured) and — standing for
the collaborating instrument — the device's own internal frequency list as
the `frequencies` command would print it. -/
structure VNAState where
  frequencies : Option (List ℚ)
  deviceFreqs : List ℚ

/-- `fetch_frequencies()`: queries the device's internal frequency list and
caches it in `_frequencies`. -/
def fetch_frequencies (st : VNAState) : VNAState :=
  { st with frequencies := some st.deviceFreqs }

/-- The frequency list the scan loop iterates over: `_frequencies`, after
fetching it from the device if it was `None`. -/
def scanFreqList (st : VNAState) : List ℚ :=
  (if st.frequencies.isNone then fetch_frequencies st else st).frequencies.getD []

/-- `NanoVNA.scan()`: issues one `scan` command per ≤ 101-point segment,
fetching device arrays 0 and 1 after each and appending them to the two
accumulators, then issues a single `resume`.  The device's responses to
`data 0` / `data 1` after a segment command are modelled by `dev0` and
`dev1` applied to that command's parameters.  The result is the issued
command trace together with the two concatenated arrays. -/
def scan (dev0 dev1 : ℚ → ℚ → ℕ → List (ℚ × ℚ)) (st : VNAState) :
    List Cmd × List (ℚ × ℚ) × List (ℚ × ℚ) :=
  ((scanSegments (scanFreqList st)).map (fun g => Cmd.scanCmd g.1 g.2.1 g.2.2) ++
      [Cmd.resumeCmd],
    ((scanSegments (scanFreqList st)).map (fun g => dev0 g.1 g.2.1 g.2.2)).flatten,
    ((scanSegments (scanFreqList st)).map (fun g => dev1 g.1 g.2.1 g.2.2)).flatten)

theorem scanSegments_counts_aux (n : ℕ) :
    ∀ l : List ℚ, l.length ≤ n →
      ((scanSegments l).map (fun g => g.2.2)).sum = l.length := by
  induction n with
  | zero =>
    intro l hl
    rw [List.length_eq_zero.1 (Nat.le_zero.1 hl)]
    simp [scanSegments]
  | succ n ih =>
    intro l hl
    cases l with
    | nil => simp [scanSegments]
    | cons f fs =>
      rw [scanSegments, List.map_cons, List.sum_cons,
        ih ((f :: fs).drop 101) (by simp at hl ⊢; omega)]
      simp
      omega

theorem scanSegments_counts (l : List ℚ) :
    ((scanSegments l).map (fun g => g.2.2)).sum = l.length :=
  scanSegments_counts_aux l.length l (le_refl _)

theorem scanSegments_length_aux (n : ℕ) :
    ∀ l : List ℚ, l.length ≤ n →
      (scanSegments l).length = (l.length + 100) / 101 := by
  induction n with
  | zero =>
    intro l hl
    rw [List.length_eq_zero.1 (Nat.le_zero.1 hl)]
    simp [scanSegments]
  | succ n ih =>
    intro l hl
    cases l with
    | nil => simp [scanSegments]
    | cons f fs =>
      rw [scanSegments, List.length_cons,
        ih ((f :: fs).drop 101) (by simp at hl ⊢; omega)]
      simp
      omega

theorem scanSegments_length (l : List ℚ) :
    (scanSegments l).length = (l.length + 100) / 101 :=
  scanSegments_length_aux l.length l (le_refl _)

theorem segSlices_flatten_aux (n : ℕ) :
    ∀ l : List ℚ, l.length ≤ n → (segSlices l).flatten = l := by
  induction n with
  | zero =>
    intro l hl
    rw [List.length_eq_zero.1 (Nat.le_zero.1 hl)]
    simp [segSlices]
  | succ n ih =>
    intro l hl
    cases l with
    | nil => simp [segSlices]
    | cons f fs =>
      rw [segSlices, List.flatten_cons, ih ((f :: fs).drop 101) (by simp at hl ⊢; omega),
        List.take_append_drop]

theorem segSlices_flatten (l : List ℚ) : (segSlices l).flatten = l :=
  segSlices_flatten_aux l.length l (le_refl _)

theorem scanSegments_lens_aux (n : ℕ) :
    ∀ l : List ℚ, l.length ≤ n →
      (scanSegments l).map (fun g => g.2.2) = segLens l.length := by
  induction n with
  | zero =>
    intro l hl
    rw [List.length_eq_zero.1 (Nat.le_zero.1 hl)]
    simp [scanSegments, segLens]
  | succ n ih =>
    intro l hl
    cases l with
    | nil => simp [scanSegments, segLens]
    | cons f fs =>
      rw [scanSegments, List.map_cons, ih ((f :: fs).drop 101) (by simp at hl ⊢; omega)]
      conv_rhs => rw [segLens]
      rw [if_neg (by simp)]
      simp

theorem scanSegments_lens (l : List ℚ) :
    (scanSegments l).map (fun g => g.2.2) = segLens l.length :=
  scanSegments_lens_aux l.length l (le_refl _)

theorem segLens_250 : segLens 250 = [101, 101, 48] := by
  rw [segLens]
  norm_num [Nat.min_def]
  rw [segLens]
  norm_num [Nat.min_def]
  rw [segLens]
  norm_num [Nat.min_def]
  rw [segLens]
  norm_num

/-- Claim C2 (confirmed): provided the device answers each segment command
with exactly the requested number of points, `scan()` over a cached
frequency list returns S11 and S21 accumulators whose total length equals
the sum of the per-segment point counts, which equals the list length; the
consumed slices reassemble the frequency list exactly (gap-free, in order,
so strictly increasing whenever the input list is); and a 250-point list
yields exactly the three segment point counts 101, 101 and 48. -/
theorem scan_segmentation (freqs dF : List ℚ) (dev0 dev1 : ℚ → ℚ → ℕ → List (ℚ × ℚ))
    (h0 : ∀ s e n, (dev0 s e n).length = n) (h1 : ∀ s e n, (dev1 s e n).length = n) :
    (scan dev0 dev1 ⟨some freqs, dF⟩).2.1.length = freqs.length ∧
      (scan dev0 dev1 ⟨some freqs, dF⟩).2.2.length = freqs.length ∧
      ((scanSegments freqs).map (fun g => g.2.2)).sum = freqs.length ∧
      (segSlices freqs).flatten = freqs ∧
      (freqs.Chain' (· < ·) → ((segSlices freqs).flatten).Chain' (· < ·)) ∧
      (freqs.length = 250 → (scanSegments freqs).map (fun g => g.2.2) = [101, 101, 48]) := by
  have harr : ∀ dev : ℚ → ℚ → ℕ → List (ℚ × ℚ), (∀ s e n, (dev s e n).length = n) →
      (((scanSegments freqs).map (fun g => dev g.1 g.2.1 g.2.2)).flatten).length =
        freqs.length := by
    intro dev hdev
    rw [List.length_flatten, List.map_map]
    calc (List.map (List.length ∘ fun g => dev g.1 g.2.1 g.2.2) (scanSegments freqs)).sum
        = (List.map (fun g : ℚ × ℚ × ℕ => g.2.2) (scanSegments freqs)).sum := by
          congr 1
          apply List.map_congr_left
          intro g _
          exact hdev g.1 g.2.1 g.2.2
      _ = freqs.length := scanSegments_counts freqs
  refine ⟨harr dev0 h0, harr dev1 h1, scanSegments_counts freqs, segSlices_flatten freqs,
    ?_, ?_⟩
  · intro hc
    rw [segSlices_flatten]
    exact hc
  · intro h250
    rw [scanSegments_lens, h250, segLens_250]

/-- Witness for C2: a 2-point list with a device answering each request
with the requested number of points; the S11 accumulator has 2 entries. -/
theorem scan_segmentation_case :
    (∀ (s e : ℚ) (n : ℕ),
        ((fun _ _ k => List.replicate k ((0 : ℚ), (0 : ℚ))) s e n).length = n) ∧
      (scan (fun _ _ n => List.replicate n ((0 : ℚ), (0 : ℚ)))
          (fun _ _ n => List.replicate n ((0 : ℚ), (0 : ℚ)))
          ⟨some [1, 2], []⟩).2.1.length = ([1, 2] : List ℚ).length :=
  ⟨fun _ _ n => List.length_replicate n (0, 0),
    (scan_segmentation [1, 2] [] _ _ (fun _ _ n => List.length_replicate n (0, 0))
      (fun _ _ n => List.length_replicate n (0, 0))).1⟩

/-- Claim C8 (confirmed): the scan loop over any cached frequency list runs
exactly `⌈N/101⌉` iterations (it produces that many segments, each
consuming `min(101, remaining) ≥ 1` points), after which `resume` is
issued exactly once. -/
theorem scan_terminates_resume_once (freqs dF : List ℚ)
    (dev0 dev1 : ℚ → ℚ → ℕ → List (ℚ × ℚ)) :
    (scanSegments freqs).length = (freqs.length + 100) / 101 ∧
      (scan dev0 dev1 ⟨some freqs, dF⟩).1.count Cmd.resumeCmd = 1 := by
  refine ⟨scanSegments_length freqs, ?_⟩
  have hcmds : (scan dev0 dev1 ⟨some freqs, dF⟩).1 =
      (scanSegments freqs).map (fun g => Cmd.scanCmd g.1 g.2.1 g.2.2) ++ [Cmd.resumeCmd] :=
    rfl
  rw [hcmds, List.count_append,
    List.count_eq_zero.2 (fun hmem => by
      rcases List.mem_map.1 hmem with ⟨g, _, hg⟩
      exact Cmd.noConfusion hg)]
  rfl

/-- Claim C10 (confirmed): calling `scan()` when `_frequencies` is still
`None` does not raise: it first fetches the device's internal frequency
list (`fetch_frequencies`, caching `some` of the device list) and then
performs the very same segmented scan it would perform with that list
cached. -/
theorem scan_fetches_when_uncached (dev0 dev1 : ℚ → ℚ → ℕ → List (ℚ × ℚ))
    (dF : List ℚ) :
    scan dev0 dev1 ⟨none, dF⟩ = scan dev0 dev1 (fetch_frequencies ⟨none, dF⟩) ∧
      (fetch_frequencies ⟨none, dF⟩).frequencies = some dF ∧
      scan dev0 dev1 ⟨none, dF⟩ = scan dev0 dev1 ⟨some dF, dF⟩ :=
  ⟨rfl, rfl, rfl⟩

/-- The reading loop of `NanoVNA.fetch_data`: reads one character at a
time from the `stream`, skips `'\r'`, appends the character to the current
`line`, flushes the line into `result` on `'\n'` (the endswith test then
sees the freshly reset empty line), and breaks — returning the `result`
accumulated so far — as soon as the current line ends with `ch>`.  A
stream exhausted before the prompt (a blocked serial read) yields
`none`. -/
def fetchDataGo (result line : List Char) : List Char → Option (List Char)
  | [] => none
  | c :: rest =>
    if c = '\r' then fetchDataGo result line rest
    else if c = '\n' then fetchDataGo (result ++ (line ++ [c])) [] rest
    else if ['c', 'h', '>'].isSuffixOf (line ++ [c]) then some result
    else fetchDataGo result (line ++ [c]) rest

/-- `NanoVNA.fetch_data()` applied to a delivered byte stream. -/
def fetch_data (stream : List Char) : Option (List Char) :=
  fetchDataGo [] [] stream

/-- Modelled from the claim's words, for comparison with the code: the
same reading loop, but terminating only when the accumulated line is
exactly equal to the three-character sentinel `ch>`. -/
def fetchDataSpecGo (result line : List Char) : List Char → Option (List Char)
  | [] => none
  | c :: rest =>
    if c = '\r' then fetchDataSpecGo result line rest
    else if c = '\n' then fetchDataSpecGo (result ++ (line ++ [c])) [] rest
    else if line ++ [c] = ['c', 'h', '>'] then some result
    else fetchDataSpecGo result (line ++ [c]) rest

/-- The claim's reading of `fetch_data`, on a delivered byte stream. -/
def fetchDataSpec (stream : List Char) : Option (List Char) :=
  fetchDataSpecGo [] [] stream

/-- The byte stream carrying the newline-terminated lines with the given
bodies. -/
def linesStream (L : List (List Char)) : List Char :=
  (L.map (fun b => b ++ ['\n'])).flatten

theorem fetchDataGo_skip_cr (result line s : List Char) :
    fetchDataGo result line ('\r' :: s) = fetchDataGo result line s := rfl

theorem fetchDataGo_newline (result line s : List Char) :
    fetchDataGo result line ('\n' :: s) =
      fetchDataGo (result ++ (line ++ ['\n'])) [] s := rfl

theorem fetchDataGo_break (result line : List Char) (c : Char) (s : List Char)
    (hr : c ≠ '\r') (hn : c ≠ '\n') (hsuf : ['c', 'h', '>'] <:+ (line ++ [c])) :
    fetchDataGo result line (c :: s) = some result := by
  show (if c = '\r' then fetchDataGo result line s
    else if c = '\n' then fetchDataGo (result ++ (line ++ [c])) [] s
    else if ['c', 'h', '>'].isSuffixOf (line ++ [c]) then some result
    else fetchDataGo result (line ++ [c]) s) = some result
  rw [if_neg hr, if_neg hn, if_pos (by rw [List.isSuffixOf_iff_suffix]; exact hsuf)]

theorem fetchDataGo_other (result line : List Char) (c : Char) (s : List Char)
    (hr : c ≠ '\r') (hn : c ≠ '\n') (hsuf : ¬ (['c', 'h', '>'] <:+ (line ++ [c]))) :
    fetchDataGo result line (c :: s) = fetchDataGo result (line ++ [c]) s := by
  show (if c = '\r' then fetchDataGo result line s
    else if c = '\n' then fetchDataGo (result ++ (line ++ [c])) [] s
    else if ['c', 'h', '>'].isSuffixOf (line ++ [c]) then some result
    else fetchDataGo result (line ++ [c]) s) = fetchDataGo result (line ++ [c]) s
  rw [if_neg hr, if_neg hn, if_neg (by rw [List.isSuffixOf_iff_suffix]; exact hsuf)]

theorem fetchDataGo_filter_cr (s : List Char) :
    ∀ result line : List Char,
      fetchDataGo result line s = fetchDataGo result line (s.filter (fun c => c ≠ '\r')) := by
  induction s with
  | nil =>
    intro result line
    rfl
  | cons c s ih =>
    intro result line
    by_cases hc : c = '\r'
    · subst hc
      have hf : ('\r' :: s).filter (fun x => x ≠ '\r') = s.filter (fun x => x ≠ '\r') := by
        simp
      rw [hf, fetchDataGo_skip_cr, ih]
    · have hf : (c :: s).filter (fun x => x ≠ '\r') = c :: s.filter (fun x => x ≠ '\r') := by
        simp [hc]
      rw [hf]
      by_cases hn : c = '\n'
      · subst hn
        rw [fetchDataGo_newline, fetchDataGo_newline, ih]
      · by_cases hsuf : ['c', 'h', '>'] <:+ (line ++ [c])
        · rw [fetchDataGo_break _ _ _ _ hc hn hsuf, fetchDataGo_break _ _ _ _ hc hn hsuf]
        · rw [fetchDataGo_other _ _ _ _ hc hn hsuf, fetchDataGo_other _ _ _ _ hc hn hsuf, ih]

theorem fetchDataGo_line (b : List Char) :
    ∀ (acc result s : List Char), '\n' ∉ b → '\r' ∉ b →
      (∀ p q, b = p ++ q → p ≠ [] → ¬ (['c', 'h', '>'] <:+ (acc ++ p))) →
      fetchDataGo result acc (b ++ '\n' :: s) =
        fetchDataGo (result ++ acc ++ b ++ ['\n']) [] s := by
  induction b with
  | nil =>
    intro acc result s _ _ _
    rw [List.nil_append, fetchDataGo_newline]
    congr 1
    simp
  | cons c b ihb =>
    intro acc result s hn hr hch
    have hcn : c ≠ '\n' := by
      intro h
      exact hn (h ▸ List.mem_cons_self c b)
    have hcr : c ≠ '\r' := by
      intro h
      exact hr (h ▸ List.mem_cons_self c b)
    have hsuf : ¬ (['c', 'h', '>'] <:+ (acc ++ [c])) :=
      hch [c] b rfl (by simp)
    rw [List.cons_append, fetchDataGo_other _ _ _ _ hcr hcn hsuf]
    rw [ihb (acc ++ [c]) result s (fun h => hn (List.mem_cons_of_mem c h))
      (fun h => hr (List.mem_cons_of_mem c h))
      (fun p q hpq hne => by
        have heq : (acc ++ [c]) ++ p = acc ++ (c :: p) := by simp
        rw [heq]
        exact hch (c :: p) q (by rw [hpq]; rfl) (List.cons_ne_nil c p))]
    congr 2
    simp

theorem fetchDataGo_lines (L : List (List Char)) :
    ∀ result rest : List Char,
      (∀ b ∈ L, '\n' ∉ b ∧ '\r' ∉ b ∧ ¬ (['c', 'h', '>'] <:+: b)) →
      fetchDataGo result [] (linesStream L ++ (['c', 'h', '>'] ++ rest)) =
        some (result ++ linesStream L) := by
  induction L with
  | nil =>
    intro result rest _
    have hstream : linesStream [] ++ (['c', 'h', '>'] ++ rest) =
        'c' :: 'h' :: '>' :: rest := rfl
    rw [hstream, fetchDataGo_other _ _ _ _ (by decide) (by decide) (by decide),
      fetchDataGo_other _ _ _ _ (by decide) (by decide) (by decide),
      fetchDataGo_break _ _ _ _ (by decide) (by decide) (by decide)]
    have : result ++ linesStream [] = result := by simp [linesStream]
    rw [this]
  | cons b L ih =>
    intro result rest hL
    obtain ⟨hn, hr, hinf⟩ := hL b (List.mem_cons_self b L)
    have hstream : linesStream (b :: L) ++ (['c', 'h', '>'] ++ rest) =
        b ++ '\n' :: (linesStream L ++ (['c', 'h', '>'] ++ rest)) := by
      simp [linesStream]
    rw [hstream,
      fetchDataGo_line b [] result _ hn hr (fun p q hpq hne hsuf => by
        rcases hsuf with ⟨u, hu⟩
        have hp : p = u ++ ['c', 'h', '>'] := by simpa using hu.symm
        exact hinf ⟨u, q, by rw [hpq, hp]⟩),
      ih _ rest (fun x hx => hL x (List.mem_cons_of_mem b hx))]
    have : result ++ [] ++ b ++ ['\n'] ++ linesStream L = result ++ linesStream (b :: L) := by
      simp [linesStream]
    rw [this]

/-- Claim C3 (amended, proved): `fetch_data` strips every carriage return,
accumulates the remaining bytes into newline-terminated lines, and
terminates as soon as the accumulated current line ends with the
three-character sentinel `ch>` (a suffix test, not a whole-line equality
test), returning the concatenation of all complete lines read before the
prompt.  Stated for any sequence of prompt-free lines followed by the
prompt and arbitrary trailing bytes, together with the carriage-return
invariance of the loop on every stream. -/
theorem fetch_data_lines_until_prompt (L : List (List Char)) (rest : List Char)
    (hL : ∀ b ∈ L, '\n' ∉ b ∧ '\r' ∉ b ∧ ¬ (['c', 'h', '>'] <:+: b)) :
    fetch_data (linesStream L ++ (['c', 'h', '>'] ++ rest)) = some (linesStream L) ∧
      ∀ s : List Char, fetch_data s = fetch_data (s.filter (fun c => c ≠ '\r')) := by
  constructor
  · have h := fetchDataGo_lines L [] rest hL
    simpa [fetch_data] using h
  · intro s
    exact fetchDataGo_filter_cr s [] []

/-- Witness for C3's amended theorem: the stream carrying the single line
`hi` followed by the prompt and a trailing byte returns exactly that
line. -/
theorem fetch_data_lines_until_prompt_case :
    (∀ b ∈ [['h', 'i']], '\n' ∉ b ∧ '\r' ∉ b ∧ ¬ (['c', 'h', '>'] <:+: b)) ∧
      fetch_data (linesStream [['h', 'i']] ++ (['c', 'h', '>'] ++ ['x'])) =
        some (linesStream [['h', 'i']]) :=
  ⟨by decide, (fetch_data_lines_until_prompt [['h', 'i']] ['x'] (by decide)).1⟩

/-- Claim C3 (counterexample): on the stream `x\nwch>` the code terminates
(the accumulated line `wch>` merely ends with `ch>`) and returns `x\n`,
while a loop terminating only on a line exactly equal to `ch>` — the
claim's reading — never sees its sentinel and exhausts the stream. -/
theorem fetch_data_sentinel_claim_false :
    fetch_data ['x', '\n', 'w', 'c', 'h', '>'] = some ['x', '\n'] ∧
      fetchDataSpec ['x', '\n', 'w', 'c', 'h', '>'] = none := by
  constructor
  · decide
  · decide
